import Mathlib

/-!
Verification development for the SIELE markup parser
(`services/markup_parser.py`, class `SieleMarkupParser`).

The Python code is shallowly embedded over `List Char` (Python `str` values,
one `Char` per code point).  Regular expressions are embedded as executable
scanners that reproduce the leftmost / non-overlapping / lazy-vs-greedy
behaviour of the concrete patterns used by the source (each pattern is
deterministic once the scan position is fixed, except for the grammar-note
pattern whose small backtracking search is implemented explicitly).
`str.strip`, `\s`, `\d`, `upper` and `lower` are modelled on their ASCII
subsets, which is faithful on every comparison the claims depend on.
The spaCy analyzer and the word table are external collaborators and enter
as parameters (`Token` lists and `WordRow` lists).
-/

namespace Siele

/-- Python `str` modelled as a list of characters. -/
abbrev Str := List Char

/-- ASCII whitespace, the characters Python's `str.strip` and `\s` treat as
whitespace: space, tab, newline, carriage return, vertical tab, form feed. -/
def isPySpace (c : Char) : Bool :=
  c = ' ' || c = '\t' || c = '\n' || c = '\r' || c = '\x0b' || c = '\x0c'

/-- ASCII decimal digit, the `\d` character class. -/
def isDig (c : Char) : Bool :=
  '0' ≤ c && c ≤ '9'

/-- ASCII upper-case letter, the `[A-Z]` character class. -/
def isUpperAZ (c : Char) : Bool :=
  'A' ≤ c && c ≤ 'Z'

/-- Python `str.lstrip` (ASCII whitespace). -/
def lstrip (s : Str) : Str := s.dropWhile isPySpace

/-- Python `str.rstrip` (ASCII whitespace). -/
def rstrip (s : Str) : Str := (s.reverse.dropWhile isPySpace).reverse

/-- Python `str.strip` (ASCII whitespace). -/
def strip (s : Str) : Str := rstrip (lstrip s)

/-- Python `str.lower` on the ASCII range. -/
def lowerC (c : Char) : Char :=
  if 'A' ≤ c && c ≤ 'Z' then Char.ofNat (c.toNat + 32) else c

/-- Python `str.upper` on the ASCII range. -/
def upperC (c : Char) : Char :=
  if 'a' ≤ c && c ≤ 'z' then Char.ofNat (c.toNat - 32) else c

def lowerS (s : Str) : Str := s.map lowerC

def upperS (s : Str) : Str := s.map upperC

/-- Python `int(...)` on a run of decimal digits. -/
def digitsToNat (s : Str) : Nat :=
  s.foldl (fun acc c => acc * 10 + (c.toNat - 48)) 0

/-- Python `str(n)` for a natural number. -/
def natToStrL (n : Nat) : Str := (Nat.repr n).toList

/-- Python `s.split(sep)` for a one-character separator: keeps empty pieces,
`[] ↦ [[]]` like `"".split`. -/
def splitOn (sep : Char) : Str → List Str
  | [] => [[]]
  | c :: rest =>
    if c = sep then [] :: splitOn sep rest
    else
      match splitOn sep rest with
      | [] => [[c]]
      | p :: ps => (c :: p) :: ps

/-- Python slice `s[a:b]` for naturals (with Python's clamping). -/
def sliceL (s : Str) (a b : Nat) : Str := (s.take b).drop a

/-- Index of the first occurrence of the literal `pat` in `s`. -/
def findLitIdx (pat : Str) : Str → Option Nat
  | [] => if pat.isEmpty then some 0 else none
  | s@(_ :: rest) =>
    if pat.isPrefixOf s then some 0
    else (findLitIdx pat rest).map (· + 1)

/-- Generic driver for `re.sub`: scan left to right, replace each
non-overlapping match (the matcher returns the replacement and the number of
characters consumed, always ≥ 1 for the patterns below), continue after the
match.  Fuel is the string length plus one. -/
def scanSub (m : Str → Option (Str × Nat)) : Nat → Str → Str
  | 0, s => s
  | _, [] => []
  | fuel + 1, s@(c :: rest) =>
    match m s with
    | some (rep, k) => rep ++ scanSub m fuel (s.drop k)
    | none => c :: scanSub m fuel rest

/-- Generic driver for `re.search`: first match, scanning left to right. -/
def scanFirst (m : Str → Option α) : Str → Option α
  | [] => none
  | s@(_ :: rest) =>
    match m s with
    | some r => some r
    | none => scanFirst m rest

/-- Matcher for `::tarea:(\d+)::` at the current position; returns the digit
group and the length of the whole match. -/
def tryTarea (s : Str) : Option (Str × Nat) :=
  if ("::tarea:".toList).isPrefixOf s then
    let r := s.drop 8
    let ds := r.takeWhile isDig
    if ds.isEmpty then none
    else if ("::".toList).isPrefixOf (r.drop ds.length) then
      some (ds, 8 + ds.length + 2)
    else none
  else none

/-- `_extract_tarea_number`: search for the pattern `::tarea:(\d+)::`, default 1. -/
def extractTareaNumber (s : Str) : Nat :=
  match scanFirst tryTarea s with
  | some (ds, _) => digitsToNat ds
  | none => 1

/-- `re.sub` of `::tarea:\d+::` with the empty replacement. -/
def removeTareaTags (s : Str) : Str :=
  scanSub (fun t => (tryTarea t).map (fun p => ([], p.2))) (s.length + 1) s

/-- Lazy group of `::title:(.+?)::` (no DOTALL, so the content may not contain
a newline): the shortest non-empty run of non-newline characters followed by
`::`.  Returns the group and the length of the whole match. -/
def titleContent (acc : Str) : Str → Option (Str × Nat)
  | [] => none
  | c :: rest =>
    if c = '\n' then none
    else
      let acc' := acc ++ [c]
      if ("::".toList).isPrefixOf rest then some (acc', 8 + acc'.length + 2)
      else titleContent acc' rest

/-- Matcher for `::title:(.+?)::` at the current position. -/
def tryTitle (s : Str) : Option (Str × Nat) :=
  if ("::title:".toList).isPrefixOf s then titleContent [] (s.drop 8)
  else none

/-- `_extract_title`: search for `::title:(.+?)::`, stripped group, else
`None`. -/
def extractTitle (s : Str) : Option Str :=
  (scanFirst tryTitle s).map (fun p => strip p.1)

/-- `re.sub` of `::title:.+?::` with the empty replacement. -/
def removeTitleTags (s : Str) : Str :=
  scanSub (fun t => (tryTitle t).map (fun p => ([], p.2))) (s.length + 1) s

/-- `_remove_metadata_tags`: strip the two metadata tags, then `str.strip`. -/
def removeMetadataTags (s : Str) : Str :=
  strip (removeTitleTags (removeTareaTags s))

/-- Matcher for the paragraph separator `\n---+\n` at the current position
(returns the number of characters consumed). -/
def trySep (s : Str) : Option Nat :=
  match s with
  | '\n' :: r =>
    let hs := r.takeWhile (· = '-')
    if 3 ≤ hs.length then
      match r.drop hs.length with
      | '\n' :: _ => some (1 + hs.length + 1)
      | _ => none
    else none
  | _ => none

def splitSepAux : Nat → Str → Str → List Str
  | 0, acc, s => [acc ++ s]
  | _, acc, [] => [acc]
  | fuel + 1, acc, s@(c :: rest) =>
    match trySep s with
    | some k => acc :: splitSepAux fuel [] (s.drop k)
    | none => splitSepAux fuel (acc ++ [c]) rest

/-- `re.split` on the separator pattern `\n---+\n`. -/
def splitParaSep (s : Str) : List Str :=
  splitSepAux (s.length + 1) [] s

/-- `"\n\n".join(parts)`. -/
def joinBlank : List Str → Str
  | [] => []
  | [p] => p
  | p :: ps => p ++ ('\n' :: '\n' :: joinBlank ps)

/-- `re.search` for `pat (.*?) pat` with DOTALL: body of the first
matched pair of the literal tag `pat`, if any. -/
def searchPair (pat : Str) : Str → Option Str
  | [] => none
  | s@(_ :: rest) =>
    if pat.isPrefixOf s then
      let after := s.drop pat.length
      match findLitIdx pat after with
      | some i => some (after.take i)
      | none => searchPair pat rest
    else searchPair pat rest

/-- Lookahead `::zh::|::grammar::` used by the `_parse_paragraph` regex
`^(.*?)(?=::zh::|::grammar::|$)` with DOTALL: the prefix of the paragraph
before the first sub-tag (the whole string when neither occurs). -/
def spanishPortion : Str → Str
  | [] => []
  | s@(c :: rest) =>
    if ("::zh::".toList).isPrefixOf s || ("::grammar::".toList).isPrefixOf s then []
    else c :: spanishPortion rest

/-- Matcher for `___GAP\d+___` at the current position; replacement is the
literal `[___]`. -/
def tryGapPlaceholder (s : Str) : Option (Str × Nat) :=
  if ("___GAP".toList).isPrefixOf s then
    let r := s.drop 6
    let ds := r.takeWhile isDig
    if ds.isEmpty then none
    else if ("___".toList).isPrefixOf (r.drop ds.length) then
      some ("[___]".toList, 6 + ds.length + 3)
    else none
  else none

/-- `re.sub` replacing each `___GAP\d+___` with the literal `[___]`. -/
def subGapPlaceholders (s : Str) : Str :=
  scanSub tryGapPlaceholder (s.length + 1) s

/-- An answer option, the `{"label", "content", "is_correct"}` dict built by
both question decoders. -/
structure OptionRec where
  label : Str
  content : Str
  is_correct : Bool
deriving DecidableEq

/-- A cloze question dict from `_extract_cloze_questions`. -/
structure ClozeQuestion where
  question_id : Nat
  gap_id : Str
  question_type : Str
  options : List OptionRec
deriving DecidableEq

/-- A discrete question dict from `_parse_question_block`. -/
structure DiscreteQuestion where
  question_id : Nat
  stem : Str
  options : List OptionRec
  question_type : Str
deriving DecidableEq

/-- The two question shapes a parse result can carry. -/
inductive QuestionRec where
  | cloze (q : ClozeQuestion)
  | discrete (q : DiscreteQuestion)
deriving DecidableEq

/-! ### Cloze grammar: `\[\[gap(\d+)\|([^\]]+)\]\]answer:([^\[]+)\[\[/gap\]\]`

Every component of this pattern is deterministic: each greedy sub-pattern
(`\d+`, `[^\]]+`, `[^\[]+`) is a maximal run whose follow-set is disjoint
from the run's character class, so no backtracking can occur. -/

/-- One cloze gap match: digit group (raw), option-list group, answer group. -/
structure GapMatch where
  gapDigits : Str
  optsStr : Str
  answerStr : Str
deriving DecidableEq

/-- Matcher for the cloze gap pattern at the current position. -/
def tryGap (s : Str) : Option (GapMatch × Nat) :=
  if ("[[gap".toList).isPrefixOf s then
    let r1 := s.drop 5
    let ds := r1.takeWhile isDig
    if ds.isEmpty then none
    else
      match r1.drop ds.length with
      | '|' :: r2 =>
        let opts := r2.takeWhile (· ≠ ']')
        if opts.isEmpty then none
        else
          match r2.drop opts.length with
          | ']' :: ']' :: r3 =>
            if ("answer:".toList).isPrefixOf r3 then
              let r4 := r3.drop 7
              let ans := r4.takeWhile (· ≠ '[')
              if ans.isEmpty then none
              else if ("[[/gap]]".toList).isPrefixOf (r4.drop ans.length) then
                some (⟨ds, opts, ans⟩, 5 + ds.length + 1 + opts.length + 2 + 7 + ans.length + 8)
              else none
            else none
          | _ => none
      | _ => none
  else none

/-- One pass of `re.finditer` and of `re.sub` with replacement `___GAP\1___` over
the cloze gap pattern: cleaned text plus the matches in order. -/
def clozeScan : Nat → Str → Str × List GapMatch
  | 0, s => (s, [])
  | _, [] => ([], [])
  | fuel + 1, s@(c :: rest) =>
    match tryGap s with
    | some (m, k) =>
      let (t, ms) := clozeScan fuel (s.drop k)
      ("___GAP".toList ++ m.gapDigits ++ "___".toList ++ t, m :: ms)
    | none =>
      let (t, ms) := clozeScan fuel rest
      (c :: t, ms)

/-- The gap matches of a text, in scan order. -/
def clozeMatches (s : Str) : List GapMatch :=
  (clozeScan (s.length + 1) s).2

/-- `options_list`: the option-list group split on the pipe character, each piece stripped. -/
def clozeOptionStrs (m : GapMatch) : List Str :=
  (splitOn '|' m.optsStr).map strip

/-- `correct_answer = match.group(3).strip()`. -/
def clozeMarker (m : GapMatch) : Str :=
  strip m.answerStr

/-- `label = chr(65 + i) if len(options_list) <= 5 else str(i + 1)`. -/
def clozeLabel (n i : Nat) : Str :=
  if n ≤ 5 then [Char.ofNat (65 + i)] else natToStrL (i + 1)

/-- One option of a cloze question: the three ordered comparison rules of
`_extract_cloze_questions` (upper-cased marker vs label, marker vs 1-based
index, marker vs raw option text), first match wins. -/
def mkClozeOpt (n : Nat) (ca : Str) (i : Nat) (content : Str) : OptionRec :=
  { label := clozeLabel n i
    content := content
    is_correct :=
      if upperS ca = clozeLabel n i then true
      else if ca = natToStrL (i + 1) then true
      else if ca = content then true
      else false }

def mkClozeOptionsAux (n : Nat) (ca : Str) : Nat → List Str → List OptionRec
  | _, [] => []
  | i, c :: rest => mkClozeOpt n ca i c :: mkClozeOptionsAux n ca (i + 1) rest

/-- The `for i, option_content in enumerate(options_list)` loop. -/
def mkClozeOptions (optsList : List Str) (ca : Str) : List OptionRec :=
  mkClozeOptionsAux optsList.length ca 0 optsList

/-- `"cloze_fragments" if tarea_number == 4 else "cloze_mc"`. -/
def clozeQType (tarea : Nat) : Str :=
  if tarea = 4 then "cloze_fragments".toList else "cloze_mc".toList

/-- The question dict appended for one gap match. -/
def mkClozeQuestion (qt : Str) (m : GapMatch) : ClozeQuestion :=
  { question_id := digitsToNat m.gapDigits
    gap_id := "gap".toList ++ natToStrL (digitsToNat m.gapDigits)
    question_type := qt
    options := mkClozeOptions (clozeOptionStrs m) (clozeMarker m) }

/-- `_extract_cloze_questions`: cleaned text, question list, question type. -/
def extractClozeQuestions (s : Str) (tarea : Nat) : Str × List ClozeQuestion × Str :=
  let qt := clozeQType tarea
  ((clozeScan (s.length + 1) s).1, (clozeMatches s).map (mkClozeQuestion qt), qt)

/-! ### Discrete grammar -/

/-- Matcher for `::answer:([A-Z])::` at the current position. -/
def tryAnswer (s : Str) : Option (Char × Nat) :=
  if ("::answer:".toList).isPrefixOf s then
    match s.drop 9 with
    | c :: r =>
      if isUpperAZ c && ("::".toList).isPrefixOf r then some (c, 12) else none
    | [] => none
  else none

/-- Search for `::answer:([A-Z])::` in a line. -/
def searchAnswerTag (s : Str) : Option Char :=
  (scanFirst tryAnswer s).map (·.1)

/-- `re.sub` of `::answer:[A-Z]::` with the empty replacement. -/
def removeAnswerTags (s : Str) : Str :=
  scanSub (fun t => (tryAnswer t).map (fun p => ([], p.2))) (s.length + 1) s

/-- `re.match` of `\[([A-Z])\]\s+(.+)` on a line: a letter label in brackets, at
least one whitespace character, then the option content (the greedy `(.+)`
takes the rest; when everything after the label is whitespace, `\s+` gives
one character back so that `(.+)` is non-empty, as the regex engine does). -/
def optionLineMatch (l : Str) : Option (Char × Str) :=
  match l with
  | '[' :: lab :: ']' :: rest =>
    if isUpperAZ lab then
      let run := (rest.takeWhile isPySpace).length
      if run = 0 then none
      else if run < rest.length then some (lab, rest.drop run)
      else if 2 ≤ run then some (lab, rest.drop (run - 1))
      else none
    else none
  | _ => none

/-- The per-line loop of `_parse_question_block` over `lines[1:]`: collects
options (marker tag stripped from their content) and the last `::answer:X::`
letter seen. -/
def parseQLines : List Str → List OptionRec → Option Char → List OptionRec × Option Char
  | [], opts, ca => (opts, ca)
  | l :: rest, opts, ca =>
    let line := strip l
    if line.isEmpty then parseQLines rest opts ca
    else
      let opts' :=
        match optionLineMatch line with
        | some (lab, content) =>
          opts ++ [⟨[lab], strip (removeAnswerTags (strip content)), false⟩]
        | none => opts
      let ca' :=
        match searchAnswerTag line with
        | some c => some c
        | none => ca
      parseQLines rest opts' ca'

/-- Lookahead `(?=\d+\.\s+|$)` (first alternative): `\d+\.\s+` matches here. -/
def qmLookahead (s : Str) : Bool :=
  let ds := s.takeWhile isDig
  !ds.isEmpty &&
    (match s.drop ds.length with
     | '.' :: c :: _ => isPySpace c
     | _ => false)

/-- Lookahead `$` (no MULTILINE): end of string, or just before a final
newline. -/
def dollarEnd (s : Str) : Bool :=
  s.isEmpty || s = ['\n']

/-- Lazy growth of `(.+?)` until the lookahead holds: consumes at least one
character, then stops at the first position where `\d+\.\s+` or `$`
matches.  Returns the content group and the rest (the lookahead is
zero-width). -/
def qmContent (acc : Str) : Str → Str × Str
  | [] => (acc, [])
  | c :: rest =>
    let acc' := acc ++ [c]
    if qmLookahead rest || dollarEnd rest then (acc', rest)
    else qmContent acc' rest

/-- Matcher for `(\d+)\.\s+(.+?)(?=\d+\.\s+|$)` (DOTALL) at the current
position: question number and raw content, plus the rest of the string after
the match.  `\s+` is greedy; it only gives one character back when the string
ends in whitespace and `(.+?)` would otherwise be empty. -/
def qmTryMatch (s : Str) : Option ((Nat × Str) × Str) :=
  let ds := s.takeWhile isDig
  if ds.isEmpty then none
  else
    match s.drop ds.length with
    | '.' :: r1 =>
      let wsr := r1.takeWhile isPySpace
      if wsr.isEmpty then none
      else
        let r2 := r1.drop wsr.length
        if r2.isEmpty then
          if 2 ≤ wsr.length then some ((digitsToNat ds, [wsr.getLastD ' ']), [])
          else none
        else
          let (content, rest) := qmContent [] r2
          some ((digitsToNat ds, content), rest)
    | _ => none

/-- `re.finditer` over the question pattern inside a block. -/
def qmScan : Nat → Str → List (Nat × Str)
  | 0, _ => []
  | _, [] => []
  | fuel + 1, s@(_ :: rest) =>
    match qmTryMatch s with
    | some (m, r') => m :: qmScan fuel r'
    | none => qmScan fuel rest

/-- The `(question number, raw content)` matches of a question block. -/
def questionMatches (block : Str) : List (Nat × Str) :=
  qmScan (block.length + 1) block

/-- The question dict built from one match of the `_parse_question_block`
pattern: stem is the first line, options come from the remaining lines, and
the matching option (if any) is marked correct. -/
def buildDiscrete (m : Nat × Str) : DiscreteQuestion :=
  let qc := strip m.2
  let lines := splitOn '\n' qc
  let stem := strip (lines.headD [])
  let pr := parseQLines lines.tail [] none
  let opts :=
    match pr.2 with
    | some ca => pr.1.map (fun o => if o.label = [ca] then { o with is_correct := true } else o)
    | none => pr.1
  { question_id := m.1, stem := stem, options := opts, question_type := "single_choice".toList }

/-- The `for match in matches` loop of `_parse_question_block`: build each
question, append it only when it has at least one option. -/
def pqbLoop : List (Nat × Str) → List DiscreteQuestion
  | [] => []
  | m :: rest =>
    let q := buildDiscrete m
    if q.options.isEmpty then pqbLoop rest else q :: pqbLoop rest

/-- `_parse_question_block`. -/
def parseQuestionBlock (block : Str) : List DiscreteQuestion :=
  pqbLoop (questionMatches block)

/-- One pass of `re.finditer`/`re.sub` over `::question::(.*?)::question::`
(DOTALL): residual text and the extracted block bodies. -/
def extractQuestionsAux : Nat → Str → Str × List Str
  | 0, s => (s, [])
  | _, [] => ([], [])
  | fuel + 1, s@(c :: rest) =>
    if ("::question::".toList).isPrefixOf s then
      let after := s.drop 12
      match findLitIdx ("::question::".toList) after with
      | some i =>
        let (t, bs) := extractQuestionsAux fuel (after.drop (i + 12))
        (t, after.take i :: bs)
      | none =>
        let (t, bs) := extractQuestionsAux fuel rest
        (c :: t, bs)
    else
      let (t, bs) := extractQuestionsAux fuel rest
      (c :: t, bs)

/-- `_extract_questions`: cleaned text and the questions of every block. -/
def extractQuestions (s : Str) : Str × List DiscreteQuestion :=
  let (t, blocks) := extractQuestionsAux (s.length + 1) s
  (t, blocks.foldl (fun acc b => acc ++ parseQuestionBlock (strip b)) [])

/-! ### Paragraph decoding -/

/-- A grammar note dict `{"word", "type", "note"}`. -/
structure GrammarNote where
  word : Str
  type : Str
  note : Str
deriving DecidableEq

/-- Inner part of the grammar-note pattern, `(.+?)\]\s*(.+)` after the `[`:
the lazy second group grows until a `]` whose tail still lets the greedy
`(.+)` be non-empty (with `\s*` giving one character back when necessary). -/
def glInner (acc : Str) : Str → Option (Str × Str)
  | [] => none
  | ']' :: rest =>
    if acc.isEmpty then glInner [']'] rest
    else
      let sp := rest.takeWhile isPySpace
      if sp.length < rest.length then some (acc, rest.drop sp.length)
      else if !rest.isEmpty then some (acc, rest.drop (sp.length - 1))
      else glInner (acc ++ [']']) rest
  | c :: rest => glInner (acc ++ [c]) rest

/-- Outer part of the grammar-note pattern `(.+?)\s*\[(.+?)\]\s*(.+)`: the lazy
first group grows until (after maximal `\s*`) a `[` opens a bracket whose
inner part matches; on inner failure the first group keeps growing, which is
exactly the backtracking order of the regex engine. -/
def glOuter (acc : Str) : Str → Option (Str × Str × Str)
  | [] => none
  | c :: rest =>
    let acc' := acc ++ [c]
    let sp := rest.takeWhile isPySpace
    match rest.drop sp.length with
    | '[' :: r2 =>
      (match glInner [] r2 with
       | some (g2, g3) => some (acc', g2, g3)
       | none => glOuter acc' rest)
    | _ => glOuter acc' rest

/-- `re.match` of `(.+?)\s*\[(.+?)\]\s*(.+)` on the line, the three groups. -/
def grammarLineMatch (l : Str) : Option (Str × Str × Str) :=
  glOuter [] l

/-- The per-line loop over a `::grammar::` body: only lines starting with
`-` are considered; a line matching the note pattern contributes a stripped
`{word, type, note}` record, other lines are skipped. -/
def parseGrammarNotes (g : Str) : List GrammarNote :=
  (splitOn '\n' (strip g)).foldl
    (fun acc l =>
      let line := strip l
      match line with
      | '-' :: restL =>
        (match grammarLineMatch (strip restL) with
         | some (w, ty, no) => acc ++ [⟨strip w, strip ty, strip no⟩]
         | none => acc)
      | _ => acc)
    []

/-- A paragraph dict as returned by `_parse_paragraph`. -/
structure Paragraph where
  paragraph_id : Str
  text_es : Str
  text_zh : Str
  start_char : Nat
  end_char : Nat
  grammar_notes : List GrammarNote
deriving DecidableEq

/-- `_parse_paragraph raw_para paragraph_id start_char` (the `raw_para` here
is already stripped by the caller, as in `parse`). -/
def parseParagraph (rp : Str) (pid : Nat) (startChar : Nat) : Paragraph :=
  let tes := subGapPlaceholders (strip (spanishPortion rp))
  let tzh :=
    match searchPair ("::zh::".toList) rp with
    | some body => strip body
    | none => []
  let gnotes :=
    match searchPair ("::grammar::".toList) rp with
    | some body => parseGrammarNotes body
    | none => []
  { paragraph_id := 'p' :: natToStrL pid
    text_es := tes
    text_zh := tzh
    start_char := startChar
    end_char := startChar + tes.length
    grammar_notes := gnotes }

/-- The `for idx, raw_para in enumerate(raw_paragraphs)` loop of `parse`:
skip fragments that strip to nothing, otherwise decode the paragraph and
advance the running offset by `len(text_es) + 1`. -/
def parseParagraphs : List Str → Nat → Nat → List Paragraph
  | [], _, _ => []
  | raw :: rest, idx, pos =>
    let rp := strip raw
    if rp.isEmpty then parseParagraphs rest (idx + 1) pos
    else
      let pd := parseParagraph rp (idx + 1) pos
      pd :: parseParagraphs rest (idx + 1) (pos + pd.text_es.length + 1)

/-! ### Linguistic annotator -/

/-- A spaCy token, as the analyzer contract exposes it: surface text, lemma,
coarse part-of-speech tag, flags, and the character offset `idx` into the
analyzed text. -/
structure Token where
  text : Str
  lemma_ : Str
  pos_ : Str
  is_stop : Bool
  is_punct : Bool
  is_space : Bool
  idx : Nat
deriving DecidableEq

/-- A row of the `words` table (language-filtered): lemma, pos, id. -/
structure WordRow where
  lemma_ : Str
  pos : Str
  id : Nat
deriving DecidableEq

/-- Python dict insertion: replace the value in place if the key exists,
otherwise append the binding. -/
def dictInsert [DecidableEq α] (k : α) (v : β) : List (α × β) → List (α × β)
  | [] => [(k, v)]
  | (k', v') :: rest =>
    if k' = k then (k, v) :: rest else (k', v') :: dictInsert k v rest

/-- `self._word_fallback.setdefault(key, []).append(v)`. -/
def fbInsert (k : Str) (v : Nat) : List (Str × List Nat) → List (Str × List Nat)
  | [] => [(k, [v])]
  | (k', vs) :: rest =>
    if k' = k then (k', vs ++ [v]) :: rest else (k', vs) :: fbInsert k v rest

/-- Association-list lookup (Python `d[k]` / `k in d`). -/
def alookup [DecidableEq α] (k : α) : List (α × β) → Option β
  | [] => none
  | (k', v) :: rest => if k' = k then some v else alookup k rest

/-- The exact-match map of `_init_word_mapping`:
`(lemma.lower(), pos.lower()) -> word_id`. -/
def buildWordMapping (ws : List WordRow) : List ((Str × Str) × Nat) :=
  ws.foldl (fun m w => dictInsert (lowerS w.lemma_, lowerS w.pos) w.id m) []

/-- The fallback map of `_init_word_mapping`: `lemma.lower() -> [word_ids]`
in insertion order. -/
def buildWordFallback (ws : List WordRow) : List (Str × List Nat) :=
  ws.foldl (fun m w => fbInsert (lowerS w.lemma_) w.id m) []

/-- A token annotation dict from `_generate_annotations`. -/
structure TokenAnn where
  index : Nat
  word : Str
  lemma_ : Str
  pos_ : Str
  start_char : Nat
  end_char : Nat
  word_id : Option Nat
deriving DecidableEq

/-- The three-strategy `word_id` lookup of `_generate_annotations`, over the
two built maps (`fallback[k][0]` is `head?` of the stored id list). -/
def lookupWordId (mp : List ((Str × Str) × Nat)) (fb : List (Str × List Nat))
    (lm ps wt : Str) : Option Nat :=
  match alookup (lm, ps) mp with
  | some i => some i
  | none =>
    match alookup lm fb with
    | some ids => ids.head?
    | none =>
      match alookup wt fb with
      | some ids => ids.head?
      | none => none

def genAnnsAux (mp : List ((Str × Str) × Nat)) (fb : List (Str × List Nat)) :
    List Token → Nat → List TokenAnn
  | [], _ => []
  | t :: rest, i =>
    if t.is_punct || t.is_space then genAnnsAux mp fb rest (i + 1)
    else
      { index := i
        word := t.text
        lemma_ := lowerS t.lemma_
        pos_ := lowerS t.pos_
        start_char := t.idx
        end_char := t.idx + t.text.length
        word_id := lookupWordId mp fb (lowerS t.lemma_) (lowerS t.pos_) (lowerS t.text) }
        :: genAnnsAux mp fb rest (i + 1)

/-- `_generate_annotations` over an analyzed document. -/
def genAnns (mp : List ((Str × Str) × Nat)) (fb : List (Str × List Nat))
    (doc : List Token) : List TokenAnn :=
  genAnnsAux mp fb doc 0

/-- A lemma dict from step 7 of `parse`. -/
structure LemmaEntry where
  index : Nat
  word : Str
  lemma_ : Str
  pos_ : Str
  is_stop : Bool
  start_char : Nat
  end_char : Nat
deriving DecidableEq

def genLemmasAux : List Token → Nat → List LemmaEntry
  | [], _ => []
  | t :: rest, i =>
    if t.is_punct || t.is_space then genLemmasAux rest (i + 1)
    else
      { index := i
        word := t.text
        lemma_ := t.lemma_
        pos_ := t.pos_
        is_stop := t.is_stop
        start_char := t.idx
        end_char := t.idx + t.text.length }
        :: genLemmasAux rest (i + 1)

/-- The `result["lemmas"]` list of `parse`. -/
def genLemmas (doc : List Token) : List LemmaEntry :=
  genLemmasAux doc 0

/-- `dist[pos] = dist.get(pos, 0) + 1`. -/
def bumpCount (k : Str) : List (Str × Nat) → List (Str × Nat)
  | [] => [(k, 1)]
  | (k', n) :: rest =>
    if k' = k then (k', n + 1) :: rest else (k', n) :: bumpCount k rest

/-- The part-of-speech distribution of step 7 of `parse`. -/
def posDistribution (doc : List Token) : List (Str × Nat) :=
  doc.foldl (fun d t => if t.is_punct || t.is_space then d else bumpCount t.pos_ d) []

/-! ### Annotated HTML rendering -/

/-- `ann.get("word_id") or ""`: Python's `or` replaces both `None` and the
falsy id `0` by the empty string. -/
def widStr : Option Nat → Str
  | none => []
  | some n => if n = 0 then [] else natToStrL n

/-- The f-string span element of `generate_annotated_html`. -/
def annSpan (a : TokenAnn) : Str :=
  "<span data-word-id=\"".toList ++ widStr a.word_id ++
    "\" data-lemma=\"".toList ++ a.lemma_ ++
    "\" data-pos=\"".toList ++ a.pos_ ++
    "\" class=\"word-link\">".toList ++ a.word ++ "</span>".toList

/-- Stable insertion into a list sorted by `start_char` (the element being
inserted goes before later elements with an equal key, matching Python's
stable `sorted`). -/
def insertAnn (a : TokenAnn) : List TokenAnn → List TokenAnn
  | [] => [a]
  | b :: rest =>
    if a.start_char ≤ b.start_char then a :: b :: rest else b :: insertAnn a rest

/-- `sorted(annotations, key=lambda x: x["start_char"])` (stable). -/
def sortAnns : List TokenAnn → List TokenAnn
  | [] => []
  | a :: rest => insertAnn a (sortAnns rest)

/-- The accumulation loop of `generate_annotated_html`: copy the literal gap
before each annotated span, emit the span, continue from the span's end, and
append the tail of the text after the last annotation. -/
def gahLoop (plain : Str) : List TokenAnn → Nat → Str
  | [], lastPos => if lastPos < plain.length then plain.drop lastPos else []
  | a :: rest, lastPos =>
    (if lastPos < a.start_char then sliceL plain lastPos a.start_char else [])
      ++ annSpan a ++ gahLoop plain rest a.end_char

/-- `generate_annotated_html(plain_text_es, annotations)`. -/
def generateAnnotatedHtml (plain : Str) (anns : List TokenAnn) : Str :=
  if anns.isEmpty then plain else gahLoop plain (sortAnns anns) 0

/-- A paragraph dict after `generate_paragraph_html` added `html_es`. -/
structure ParagraphH extends Paragraph where
  html_es : Str
deriving DecidableEq

/-- The annotations of one paragraph, shifted to paragraph-relative offsets
(the `para_annotations` filter plus the `adjusted` copies). -/
def adjustedAnns (anns : List TokenAnn) (para : Paragraph) : List TokenAnn :=
  (anns.filter (fun a => para.start_char ≤ a.start_char && a.start_char < para.end_char)).map
    (fun a => { a with start_char := a.start_char - para.start_char
                       end_char := a.end_char - para.start_char })

/-- `generate_paragraph_html(paragraphs, annotations)`: each input paragraph
is copied, extended with its rendered `html_es`, and collected in order. -/
def generateParagraphHtml (paragraphs : List Paragraph) (anns : List TokenAnn) :
    List ParagraphH :=
  paragraphs.map (fun para =>
    { toParagraph := para
      html_es := generateAnnotatedHtml para.text_es (adjustedAnns anns para) })

/-- Observation function for the round-trip property: strip every
`<span ...>content</span>` element of a rendered string down to its content,
keeping the literal gaps. -/
def stripSpans : Nat → Str → Str
  | 0, s => s
  | _, [] => []
  | fuel + 1, s@(c :: rest) =>
    if ("<span ".toList).isPrefixOf s then
      match findLitIdx ['>'] s with
      | some i =>
        let after := s.drop (i + 1)
        (match findLitIdx ("</span>".toList) after with
         | some j => after.take j ++ stripSpans fuel (after.drop (j + 7))
         | none => c :: stripSpans fuel rest)
      | none => c :: stripSpans fuel rest
    else c :: stripSpans fuel rest

/-- Strip the span wrappers of a rendered paragraph (fuelled driver). -/
def stripSpanWrappers (s : Str) : Str :=
  stripSpans (s.length + 1) s

/-! ### The pipeline orchestrator `parse` -/

/-- The result dict of `SieleMarkupParser.parse`. -/
structure ParseResult where
  tarea_number : Nat
  title : Option Str
  raw_markup_text : Str
  plain_text_es : Str
  paragraphs : List Paragraph
  questions : List QuestionRec
  question_type : Str
  lemmas : List LemmaEntry
  pos_distribution : List (Str × Nat)
  annotations : List TokenAnn
deriving DecidableEq

/-- `SieleMarkupParser.parse`, parameterised by the external analyzer
(spaCy) and the word table rows (the lexicon collaborator). -/
def parse (analyzer : Str → List Token) (ws : List WordRow) (raw : Str) : ParseResult :=
  let tarea := extractTareaNumber raw
  let cz := extractClozeQuestions raw tarea
  let dq := extractQuestions raw
  let isCloze : Bool := tarea == 4 || tarea == 5
  let text1 := if isCloze then cz.1 else dq.1
  let questions :=
    if isCloze then cz.2.1.map QuestionRec.cloze else dq.2.map QuestionRec.discrete
  let qtype := if isCloze then cz.2.2 else "single_choice".toList
  let frags := splitParaSep (removeMetadataTags text1)
  let paragraphs := parseParagraphs frags 0 0
  let plain := joinBlank (paragraphs.map (fun q => q.text_es))
  let doc := analyzer plain
  { tarea_number := tarea
    title := extractTitle raw
    raw_markup_text := raw
    plain_text_es := plain
    paragraphs := paragraphs
    questions := questions
    question_type := qtype
    lemmas := genLemmas doc
    pos_distribution := posDistribution doc
    annotations := genAnns (buildWordMapping ws) (buildWordFallback ws) doc }

/-! ### Spec-side definitions used by the claim statements -/

/-- The three-tier lexicon resolution as the spec words it: (1) exact
`(lemma, pos)` key in the lexicon map; (2) the first id associated with the
lemma in word-table insertion order; (3) the lower-cased surface form looked
up in the same lemma-keyed fallback, again first id in insertion order.
First match wins, `none` when all three fail. -/
def resolveWordId (ws : List WordRow) (lm ps wt : Str) : Option Nat :=
  match alookup (lm, ps) (buildWordMapping ws) with
  | some i => some i
  | none =>
    match ws.find? (fun w => decide (lowerS w.lemma_ = lm)) with
    | some w => some w.id
    | none =>
      match ws.find? (fun w => decide (lowerS w.lemma_ = wt)) with
      | some w => some w.id
      | none => none

/-- Agreement of one annotation entry with one lemmas entry: same index,
word and character span, and the annotation's lemma/pos are the lower-cased
lemma/pos of the lemmas entry. -/
def annLemAgree (a : TokenAnn) (l : LemmaEntry) : Prop :=
  a.index = l.index ∧ a.word = l.word ∧ a.start_char = l.start_char ∧
    a.end_char = l.end_char ∧ a.lemma_ = lowerS l.lemma_ ∧ a.pos_ = lowerS l.pos_

/-- A concrete stand-in for the external analyzer on the two-paragraph
document `"ab\n\ncd"`: every token sits at its true character offset (its
surface text is the slice of the analyzed text at `[idx, idx+len)`), which is
exactly the analyzer contract spaCy provides. -/
def c2Analyzer : Str → List Token := fun s =>
  if s = "ab\n\ncd".toList then
    [⟨"ab".toList, "ab".toList, "X".toList, false, false, false, 0⟩,
     ⟨"\n\n".toList, "\n\n".toList, "SPACE".toList, false, false, true, 2⟩,
     ⟨"cd".toList, "cd".toList, "X".toList, false, false, false, 4⟩]
  else []

/-- A concrete analyzer for the two-token document `"Hola casa"`, used to
instantiate the three-tier lookup: `Hola` resolves through tier 1 and `casa`
(lemmatised to `caso`, absent from the table) through tier 3. -/
def c4Analyzer : Str → List Token := fun s =>
  if s = "Hola casa".toList then
    [⟨"Hola".toList, "hola".toList, "INTJ".toList, false, false, false, 0⟩,
     ⟨"casa".toList, "caso".toList, "NOUN".toList, false, false, false, 5⟩]
  else []

/-- The two-row word table for the tier-lookup witness. -/
def c4Words : List WordRow :=
  [⟨"hola".toList, "intj".toList, 1⟩, ⟨"casa".toList, "noun".toList, 2⟩]

/-! ## Claim theorems -/

/-- C1.  The claimed invariant `plain_text_es[start_char:end_char] = text_es`
fails on the code: `parse` accumulates offsets with `len(text_es) + 1`, but
`plain_text_es` joins paragraphs with the two-character separator `"\n\n"`.
On `"ab\n---\ncd"` the second paragraph gets `(start, end) = (3, 5)` (the
`len + 1` accumulation the claim describes), yet its text starts at index 4
of `"ab\n\ncd"`, so the slice `[3:5]` is `"\nc"`, not `"cd"`. -/
theorem c1_offset_eval :
    (parse (fun _ => []) [] ("ab\n---\ncd".toList)).plain_text_es = "ab\n\ncd".toList ∧
      (parse (fun _ => []) [] ("ab\n---\ncd".toList)).paragraphs.map
          (fun q => (q.text_es, q.start_char, q.end_char)) =
        [("ab".toList, 0, 2), ("cd".toList, 3, 5)] ∧
      sliceL ("ab\n\ncd".toList) 3 5 ≠ "cd".toList := by
  decide

/-- C2.  The round-trip property fails on the code for every paragraph after
the first, as a consequence of the same offset slip as C1: annotations carry
`plain_text_es` offsets, paragraph records carry `len + 1`-accumulated
offsets, so `generate_paragraph_html` shifts every annotation of paragraph
`k` by `k - 1` characters.  With an analyzer whose tokens sit at their true
offsets (each token's text is the slice of `"ab\n\ncd"` at its span), the
second paragraph `"cd"` renders to html that strips back to `"ccd"`. -/
theorem c2_roundtrip_eval :
    ((parse c2Analyzer [] ("ab\n---\ncd".toList)).annotations.all
        (fun a => a.word == sliceL (parse c2Analyzer [] ("ab\n---\ncd".toList)).plain_text_es
          a.start_char a.end_char)) = true ∧
      (parse c2Analyzer [] ("ab\n---\ncd".toList)).paragraphs.map (fun q => q.text_es) =
        ["ab".toList, "cd".toList] ∧
      ((generateParagraphHtml (parse c2Analyzer [] ("ab\n---\ncd".toList)).paragraphs
            (parse c2Analyzer [] ("ab\n---\ncd".toList)).annotations).map
          (fun q => stripSpanWrappers q.html_es)) = ["ab".toList, "ccd".toList] ∧
      "ccd".toList ≠ "cd".toList := by
  decide

/-- C3 counterexample.  "At most one option has `is_correct = true`" is
false: on `[[gap1|b|y]]answer:b[[/gap]]` the marker `b` matches the raw
text of option 1 (third rule) and the label `B` of option 2 after
upper-casing (first rule), so both options are marked correct. -/
theorem c3_counterexample :
    ((extractClozeQuestions ("[[gap1|b|y]]answer:b[[/gap]]".toList) 4).2.1.map
        (fun q => (q.options.filter (fun o => o.is_correct)).length)) = [2] ∧
      ((extractClozeQuestions ("[[gap1|b|y]]answer:b[[/gap]]".toList) 4).2.1.map
        (fun q => q.options.map (fun o => o.is_correct))) = [[true, true]] := by
  decide

/-- C6 counterexample.  Parsing the plain text of a parse result a second
time does not always give one paragraph: the split on `\n---+\n` only
removes non-overlapping separators, so `"a\n---\n---\nb"` parses to the two
paragraphs `"a"` and `"---\nb"`, the second still containing a separator
line; its plain text `"a\n\n---\nb"` re-parses into two paragraphs. -/
theorem c6_counterexample :
    (parse (fun _ => []) [] ("a\n---\n---\nb".toList)).plain_text_es = "a\n\n---\nb".toList ∧
      (parse (fun _ => [])
            [] ((parse (fun _ => []) [] ("a\n---\n---\nb".toList)).plain_text_es)).paragraphs.map
          (fun q => q.text_es) = ["a".toList, "b".toList] ∧
      (parse (fun _ => [])
            [] ((parse (fun _ => []) [] ("a\n---\n---\nb".toList)).plain_text_es)).paragraphs.length
        ≠ 1 := by
  decide

/-! ### Helper lemmas (shared) -/

theorem parse_paragraphs_eq (A : Str → List Token) (ws : List WordRow) (raw : Str) :
    (parse A ws raw).paragraphs =
      parseParagraphs
        (splitParaSep (removeMetadataTags
          (if (extractTareaNumber raw == 4 || extractTareaNumber raw == 5 : Bool) then
            (extractClozeQuestions raw (extractTareaNumber raw)).1
          else (extractQuestions raw).1))) 0 0 := rfl

theorem parseParagraphs_mem (frags : List Str) (idx pos : Nat) :
    ∀ p ∈ parseParagraphs frags idx pos,
      pos ≤ p.start_char ∧ p.end_char = p.start_char + p.text_es.length := by
  induction frags generalizing idx pos with
  | nil => intro p hp; simp [parseParagraphs] at hp
  | cons raw rest ih =>
    intro p hp
    simp only [parseParagraphs] at hp
    by_cases h : (strip raw).isEmpty = true
    · rw [if_pos h] at hp
      exact ih (idx + 1) pos p hp
    · rw [if_neg h] at hp
      rcases List.mem_cons.mp hp with rfl | hmem
      · exact ⟨Nat.le_refl _, rfl⟩
      · have := ih (idx + 1) (pos + (parseParagraph (strip raw) (idx + 1) pos).text_es.length + 1)
          p hmem
        exact ⟨by omega, this.2⟩

theorem parseParagraphs_chain (frags : List Str) (idx pos : Nat) :
    List.Chain' (fun a b => a.start_char < b.start_char ∧ a.end_char < b.end_char)
      (parseParagraphs frags idx pos) := by
  induction frags generalizing idx pos with
  | nil => simp [parseParagraphs]
  | cons raw rest ih =>
    simp only [parseParagraphs]
    by_cases h : (strip raw).isEmpty = true
    · rw [if_pos h]; exact ih (idx + 1) pos
    · rw [if_neg h]
      rw [List.chain'_cons']
      refine ⟨?_, ih (idx + 1) _⟩
      intro y hy
      have hmem : y ∈ parseParagraphs rest (idx + 1)
          (pos + (parseParagraph (strip raw) (idx + 1) pos).text_es.length + 1) :=
        List.mem_of_mem_head? hy
      have hy2 := parseParagraphs_mem rest (idx + 1) _ y hmem
      have h1 : (parseParagraph (strip raw) (idx + 1) pos).start_char = pos := rfl
      have h2 : (parseParagraph (strip raw) (idx + 1) pos).end_char =
          pos + (parseParagraph (strip raw) (idx + 1) pos).text_es.length := rfl
      constructor <;> omega

/-- C5.  In every parse result, every paragraph satisfies
`end_char - start_char = len(text_es)`, and both `start_char` and `end_char`
are strictly increasing along the paragraph list (consecutive paragraphs are
compared; the offsets accumulate by `len + 1 > 0`). -/
theorem c5_offsets_monotone (analyzer : Str → List Token) (ws : List WordRow) (raw : Str) :
    List.Forall (fun p => p.end_char - p.start_char = p.text_es.length)
        (parse analyzer ws raw).paragraphs ∧
      List.Chain' (fun a b => a.start_char < b.start_char ∧ a.end_char < b.end_char)
        (parse analyzer ws raw).paragraphs := by
  constructor
  · rw [List.forall_iff_forall_mem, parse_paragraphs_eq]
    intro p hp
    have := parseParagraphs_mem _ 0 0 p hp
    omega
  · rw [parse_paragraphs_eq]
    exact parseParagraphs_chain _ 0 0

theorem pqbLoop_filter (ms : List (Nat × Str)) :
    pqbLoop ms = (ms.map buildDiscrete).filter (fun q => !q.options.isEmpty) := by
  induction ms with
  | nil => rfl
  | cons m rest ih =>
    simp only [pqbLoop, List.map, List.filter]
    by_cases h : (buildDiscrete m).options.isEmpty = true
    · simp [h, ih]
    · simp [h, ih]

/-- C7.  `_parse_question_block` keeps exactly the matched questions that
decoded at least one `[LETTER]`-prefixed option line, in order, and silently
drops the ones with zero options (no error is possible: the decoder is a
total function). -/
theorem c7_zero_option_drop (block : Str) :
    parseQuestionBlock block =
      ((questionMatches block).map buildDiscrete).filter (fun q => !q.options.isEmpty) :=
  pqbLoop_filter (questionMatches block)

theorem genAux_parallel (mp : List ((Str × Str) × Nat)) (fb : List (Str × List Nat))
    (doc : List Token) (i : Nat) :
    List.Forall₂ annLemAgree (genAnnsAux mp fb doc i) (genLemmasAux doc i) := by
  induction doc generalizing i with
  | nil => simp [genAnnsAux, genLemmasAux]
  | cons t rest ih =>
    simp only [genAnnsAux, genLemmasAux]
    by_cases h : (t.is_punct || t.is_space) = true
    · rw [if_pos h, if_pos h]; exact ih (i + 1)
    · rw [if_neg h, if_neg h]
      exact List.Forall₂.cons ⟨rfl, rfl, rfl, rfl, rfl, rfl⟩ (ih (i + 1))

/-- C9.  In every parse result the annotations and the lemmas lists are
parallel: they have the same length and agree position-wise on index, word
and character span, the annotation's lemma/pos being the lower-cased
lemma/pos of the corresponding lemmas entry (both loops enumerate the same
token stream and skip exactly the punctuation/whitespace tokens). -/
theorem c9_parallel_lists (analyzer : Str → List Token) (ws : List WordRow) (raw : Str) :
    List.Forall₂ annLemAgree (parse analyzer ws raw).annotations (parse analyzer ws raw).lemmas :=
  genAux_parallel (buildWordMapping ws) (buildWordFallback ws)
    (analyzer (parse analyzer ws raw).plain_text_es) 0

/-- C10.  `generate_paragraph_html` is a pure function of its arguments in
this embedding (the code only reads its inputs and builds `.copy()`s): every
returned paragraph agrees with the corresponding input paragraph on all six
pre-existing fields (`ParagraphH.toParagraph` is the embedded copy of the
input dict) and only adds the `html_es` field; the input lists themselves
are immutable values. -/
theorem c10_copy_semantics (paragraphs : List Paragraph) (anns : List TokenAnn) :
    List.Forall₂ (fun (ph : ParagraphH) (p : Paragraph) => ph.toParagraph = p)
      (generateParagraphHtml paragraphs anns) paragraphs := by
  induction paragraphs with
  | nil => exact List.Forall₂.nil
  | cons p rest ih => exact List.Forall₂.cons rfl ih

theorem alookup_fbInsert (k : Str) (v : Nat) (m : List (Str × List Nat)) (l : Str) :
    alookup l (fbInsert k v m) =
      if k = l then some (((alookup l m).getD []) ++ [v]) else alookup l m := by
  induction m with
  | nil =>
    simp only [fbInsert, alookup]
    by_cases h : k = l <;> simp [h]
  | cons kv rest ih =>
    obtain ⟨k', vs⟩ := kv
    simp only [fbInsert]
    by_cases h1 : k' = k
    · subst h1
      by_cases h2 : k' = l
      · subst h2; simp [alookup]
      · simp [alookup, h2]
    · rw [if_neg h1]
      by_cases h2 : k' = l
      · subst h2
        have hkl : ¬k = k' := fun hh => h1 hh.symm
        simp [alookup, hkl]
      · simp [alookup, h2, ih]

theorem alookup_fb_foldl (ws : List WordRow) (m : List (Str × List Nat)) (l : Str) :
    alookup l (ws.foldl (fun acc w => fbInsert (lowerS w.lemma_) w.id acc) m) =
      match alookup l m with
      | some ids =>
        some (ids ++ (ws.filter (fun w => decide (lowerS w.lemma_ = l))).map (fun w => w.id))
      | none =>
        match ws.find? (fun w => decide (lowerS w.lemma_ = l)) with
        | some _ =>
          some ((ws.filter (fun w => decide (lowerS w.lemma_ = l))).map (fun w => w.id))
        | none => none := by
  induction ws generalizing m with
  | nil => cases h : alookup l m <;> simp [List.foldl, h]
  | cons w rest ih =>
    rw [List.foldl_cons, ih (fbInsert (lowerS w.lemma_) w.id m), alookup_fbInsert]
    by_cases hw : lowerS w.lemma_ = l
    · rw [if_pos hw]
      cases h : alookup l m <;>
        simp [List.filter_cons, List.find?, hw, h]
    · rw [if_neg hw]
      cases h : alookup l m <;>
        simp [List.filter_cons, List.find?, hw, h]

theorem find_eq_filter_head (p : α → Bool) (l : List α) :
    l.find? p = (l.filter p).head? := by
  induction l with
  | nil => rfl
  | cons a rest ih =>
    cases h : p a with
    | true =>
      rw [List.find?_cons_of_pos _ h, List.filter_cons_of_pos h, List.head?_cons]
    | false =>
      rw [List.find?_cons_of_neg _ (by simp [h]), List.filter_cons_of_neg (by simp [h])]
      exact ih

theorem lookupWordId_resolves (ws : List WordRow) (lm ps wt : Str) :
    lookupWordId (buildWordMapping ws) (buildWordFallback ws) lm ps wt =
      resolveWordId ws lm ps wt := by
  unfold lookupWordId resolveWordId
  cases h1 : alookup (lm, ps) (buildWordMapping ws)
  · have h2 := alookup_fb_foldl ws [] lm
    have h3 := alookup_fb_foldl ws [] wt
    simp only [alookup] at h2 h3
    rw [show buildWordFallback ws =
          ws.foldl (fun acc w => fbInsert (lowerS w.lemma_) w.id acc) [] from rfl] at *
    cases hf2 : ws.find? (fun w => decide (lowerS w.lemma_ = lm)) with
    | some w2 =>
      rw [hf2] at h2
      rw [h2]
      have : ((ws.filter (fun w => decide (lowerS w.lemma_ = lm))).map (fun w => w.id)).head? =
          some w2.id := by
        rw [List.head?_map, ← find_eq_filter_head, hf2]
        rfl
      simp [this]
    | none =>
      rw [hf2] at h2
      rw [h2]
      cases hf3 : ws.find? (fun w => decide (lowerS w.lemma_ = wt)) with
      | some w3 =>
        rw [hf3] at h3
        rw [h3]
        have : ((ws.filter (fun w => decide (lowerS w.lemma_ = wt))).map (fun w => w.id)).head? =
            some w3.id := by
          rw [List.head?_map, ← find_eq_filter_head, hf3]
          rfl
        simp [this]
      | none =>
        rw [hf3] at h3
        rw [h3]
  · rfl

theorem genAnnsAux_word_id (mp : List ((Str × Str) × Nat)) (fb : List (Str × List Nat))
    (doc : List Token) (i : Nat) (a : TokenAnn) (ha : a ∈ genAnnsAux mp fb doc i) :
    a.word_id = lookupWordId mp fb a.lemma_ a.pos_ (lowerS a.word) := by
  induction doc generalizing i with
  | nil => simp [genAnnsAux] at ha
  | cons t rest ih =>
    simp only [genAnnsAux] at ha
    by_cases h : (t.is_punct || t.is_space) = true
    · rw [if_pos h] at ha
      exact ih (i + 1) ha
    · rw [if_neg h] at ha
      rcases List.mem_cons.mp ha with rfl | hmem
      · rfl
      · exact ih (i + 1) hmem

/-- C4.  For every annotation of a parse result (one per non-punctuation,
non-whitespace token), `word_id` is the three-tier resolution the spec
describes: exact `(lemma.lower(), pos.lower())` key in the lexicon map, then
the first id associated with the lemma in word-table insertion order, then
the lower-cased surface form tried against the same lemma-keyed fallback;
`none` when all three tiers fail.  First match wins. -/
theorem c4_three_tier (analyzer : Str → List Token) (ws : List WordRow) (raw : Str)
    (a : TokenAnn) (ha : a ∈ (parse analyzer ws raw).annotations) :
    a.word_id = resolveWordId ws a.lemma_ a.pos_ (lowerS a.word) := by
  have h := genAnnsAux_word_id (buildWordMapping ws) (buildWordFallback ws)
    (analyzer (parse analyzer ws raw).plain_text_es) 0 a ha
  rw [h, lookupWordId_resolves]

/-- C4 witness: on the document `"Hola casa"` with the two-row table
(`hola/intj ↦ 1`, `casa/noun ↦ 2`), the token `casa` (lemma `caso`) is
annotated, and its `word_id` is the tier-3 resolution (surface-form
fallback) of the spec-side resolver. -/
theorem c4_witness :
    (⟨1, "casa".toList, "caso".toList, "noun".toList, 5, 9, some 2⟩ : TokenAnn) ∈
        (parse c4Analyzer c4Words ("Hola casa".toList)).annotations ∧
      (some 2 : Option Nat) =
        resolveWordId c4Words ("caso".toList) ("noun".toList) (lowerS ("casa".toList)) :=
  ⟨by decide,
    c4_three_tier c4Analyzer c4Words ("Hola casa".toList)
      ⟨1, "casa".toList, "caso".toList, "noun".toList, 5, 9, some 2⟩ (by decide)⟩

theorem extractCloze_questions_eq (text : Str) (tarea : Nat) :
    (extractClozeQuestions text tarea).2.1 =
      (clozeMatches text).map (mkClozeQuestion (clozeQType tarea)) := rfl

theorem mkClozeOpt_is_correct_iff (n : Nat) (ca : Str) (i : Nat) (content : Str) :
    (mkClozeOpt n ca i content).is_correct = true ↔
      (upperS ca = clozeLabel n i ∨ ca = natToStrL (i + 1) ∨ ca = content) := by
  simp only [mkClozeOpt]
  split_ifs with h1 h2 h3
  · simp [h1]
  · simp [h2]
  · simp [h3]
  · simp [h1, h2, h3]

theorem mkClozeOptionsAux_get? (n : Nat) (ca : Str) (lst : List Str) (i0 j : Nat)
    (hj : j < lst.length) :
    (mkClozeOptionsAux n ca i0 lst).get? j =
      some (mkClozeOpt n ca (i0 + j) (lst.getD j [])) := by
  induction lst generalizing i0 j with
  | nil => simp at hj
  | cons c rest ih =>
    cases j with
    | zero => simp [mkClozeOptionsAux, List.getD]
    | succ j' =>
      have hj' : j' < rest.length := by simpa using hj
      simp only [mkClozeOptionsAux, List.get?_cons_succ]
      rw [ih (i0 + 1) j' hj']
      have h1 : i0 + (j' + 1) = i0 + 1 + j' := by omega
      have h2 : (c :: rest).getD (j' + 1) [] = rest.getD j' [] := by simp [List.getD]
      rw [h1, h2]

/-- C3 (amended).  The nearby truth: every extracted cloze question comes
from a gap match, and its `i`-th option is marked correct exactly when the
stripped marker satisfies at least one of the three ordered comparison rules
for that option (upper-cased marker = label, marker = 1-based index, marker
= raw option text).  The rules are tried in order per option, but since each
option is judged independently, two different options may both end up
correct (see the counterexample). -/
theorem c3_amended (text : Str) (tarea : Nat) (q : ClozeQuestion)
    (hq : q ∈ (extractClozeQuestions text tarea).2.1) :
    ∃ m ∈ clozeMatches text, q = mkClozeQuestion (clozeQType tarea) m ∧
      ∀ i < (clozeOptionStrs m).length,
        ∃ o, q.options.get? i = some o ∧
          (o.is_correct = true ↔
            (upperS (clozeMarker m) = clozeLabel (clozeOptionStrs m).length i ∨
             clozeMarker m = natToStrL (i + 1) ∨
             clozeMarker m = (clozeOptionStrs m).getD i [])) := by
  rw [extractCloze_questions_eq] at hq
  obtain ⟨m, hm, hqm⟩ := List.mem_map.mp hq
  refine ⟨m, hm, hqm.symm, ?_⟩
  intro i hi
  refine ⟨mkClozeOpt (clozeOptionStrs m).length (clozeMarker m) i ((clozeOptionStrs m).getD i []),
    ?_, ?_⟩
  · rw [← hqm]
    show (mkClozeOptionsAux (clozeOptionStrs m).length (clozeMarker m) 0
        (clozeOptionStrs m)).get? i = _
    rw [mkClozeOptionsAux_get? _ _ _ 0 i hi, Nat.zero_add]
  · exact mkClozeOpt_is_correct_iff _ _ _ _

/-- C3 amended witness: on the counterexample gap `[[gap1|b|y]]answer:b[[/gap]]`
the amended characterisation holds at the extracted question. -/
theorem c3_amended_witness :
    ∃ m ∈ clozeMatches ("[[gap1|b|y]]answer:b[[/gap]]".toList),
      mkClozeQuestion (clozeQType 4) ⟨"1".toList, "b|y".toList, "b".toList⟩ =
          mkClozeQuestion (clozeQType 4) m ∧
        ∀ i < (clozeOptionStrs m).length,
          ∃ o, (mkClozeQuestion (clozeQType 4) ⟨"1".toList, "b|y".toList, "b".toList⟩).options.get? i
                = some o ∧
            (o.is_correct = true ↔
              (upperS (clozeMarker m) = clozeLabel (clozeOptionStrs m).length i ∨
               clozeMarker m = natToStrL (i + 1) ∨
               clozeMarker m = (clozeOptionStrs m).getD i [])) :=
  c3_amended ("[[gap1|b|y]]answer:b[[/gap]]".toList) 4
    (mkClozeQuestion (clozeQType 4) ⟨"1".toList, "b|y".toList, "b".toList⟩) (by decide)

theorem mkClozeOptionsAux_all_false (n : Nat) (ca : Str) (lst : List Str) (i0 : Nat)
    (hno : ∀ i < lst.length,
        ¬(upperS ca = clozeLabel n (i0 + i) ∨ ca = natToStrL (i0 + i + 1) ∨
          ca = lst.getD i [])) :
    ∀ o ∈ mkClozeOptionsAux n ca i0 lst, o.is_correct = false := by
  induction lst generalizing i0 with
  | nil => intro o ho; simp [mkClozeOptionsAux] at ho
  | cons c rest ih =>
    intro o ho
    simp only [mkClozeOptionsAux] at ho
    rcases List.mem_cons.mp ho with rfl | hmem
    · have h0 := hno 0 (by simp)
      rw [Nat.add_zero] at h0
      have hc : (c :: rest).getD 0 [] = c := rfl
      rw [hc] at h0
      push_neg at h0
      obtain ⟨ha, hb, hcc⟩ := h0
      simp [mkClozeOpt, ha, hb, hcc]
    · refine ih (i0 + 1) ?_ o hmem
      intro i hi
      have := hno (i + 1) (by simpa using Nat.succ_lt_succ hi)
      have h1 : i0 + (i + 1) = i0 + 1 + i := by omega
      have h2 : (c :: rest).getD (i + 1) [] = rest.getD i [] := by simp [List.getD]
      rw [h1, h2] at this
      exact this

/-- C8.  A cloze gap whose stripped answer marker matches no option under
any of the three comparison rules still yields its question (extraction is a
total function, nothing is raised), and every option of that question has
`is_correct = false`. -/
theorem c8_unmatched_marker (text : Str) (tarea : Nat) (m : GapMatch)
    (hm : m ∈ clozeMatches text)
    (hno : ∀ i < (clozeOptionStrs m).length,
        ¬(upperS (clozeMarker m) = clozeLabel (clozeOptionStrs m).length i ∨
          clozeMarker m = natToStrL (i + 1) ∨
          clozeMarker m = (clozeOptionStrs m).getD i [])) :
    mkClozeQuestion (clozeQType tarea) m ∈ (extractClozeQuestions text tarea).2.1 ∧
      ∀ o ∈ (mkClozeQuestion (clozeQType tarea) m).options, o.is_correct = false := by
  constructor
  · rw [extractCloze_questions_eq]
    exact List.mem_map_of_mem _ hm
  · intro o ho
    refine mkClozeOptionsAux_all_false (clozeOptionStrs m).length (clozeMarker m)
      (clozeOptionStrs m) 0 ?_ o ho
    intro i hi
    simpa using hno i hi

/-- C8 witness: the marker `Z` of `[[gap1|a|b]]answer:Z[[/gap]]` matches no
option under any rule; the question is extracted and both options are
incorrect. -/
theorem c8_witness :
    mkClozeQuestion (clozeQType 4) ⟨"1".toList, "a|b".toList, "Z".toList⟩ ∈
        (extractClozeQuestions ("[[gap1|a|b]]answer:Z[[/gap]]".toList) 4).2.1 ∧
      ∀ o ∈ (mkClozeQuestion (clozeQType 4) ⟨"1".toList, "a|b".toList, "Z".toList⟩).options,
        o.is_correct = false :=
  c8_unmatched_marker ("[[gap1|a|b]]answer:Z[[/gap]]".toList) 4
    ⟨"1".toList, "a|b".toList, "Z".toList⟩ (by decide) (by decide)

/-- C6 (amended).  The nearby truth: re-parsing is idempotent for benign
plain texts.  If a text contains no tarea tag (`extractTareaNumber` defaults
to 1), no question-tag pair, no metadata tags, no paragraph separator, no
translation/grammar sub-tag and no gap placeholder, is non-empty and equal
to its own strip — which holds for the `plain_text_es` of any parse result
whose paragraphs leaked none of those constructs and are non-empty — then
parsing it yields exactly one paragraph spanning the whole text, whose
`text_es` is the input itself, and the new `plain_text_es` equals it. -/
theorem c6_amended (p : Str) (A : Str → List Token) (ws : List WordRow)
    (h1 : extractTareaNumber p = 1)
    (h2 : extractQuestions p = (p, []))
    (h3 : removeMetadataTags p = p)
    (h4 : splitParaSep p = [p])
    (h5 : strip p = p)
    (h6 : p ≠ [])
    (h7 : spanishPortion p = p)
    (h8 : subGapPlaceholders p = p) :
    (parse A ws p).paragraphs.map (fun q => (q.text_es, q.start_char, q.end_char)) =
        [(p, 0, p.length)] ∧
      (parse A ws p).plain_text_es = p := by
  have hne : (strip p).isEmpty = false := by
    rw [h5]
    cases p with
    | nil => cases h6 rfl
    | cons c cs => rfl
  have htes : (parseParagraph p 1 0).text_es = p := by
    show subGapPlaceholders (strip (spanishPortion p)) = p
    rw [h7, h5, h8]
  have hstart : (parseParagraph p 1 0).start_char = 0 := rfl
  have hend : (parseParagraph p 1 0).end_char = p.length := by
    rw [show (parseParagraph p 1 0).end_char =
          0 + (parseParagraph p 1 0).text_es.length from rfl, htes]
    omega
  have hpar : (parse A ws p).paragraphs = [parseParagraph p 1 0] := by
    rw [parse_paragraphs_eq, h1]
    rw [show (if ((1 : Nat) == 4 || (1 : Nat) == 5 : Bool) then
          (extractClozeQuestions p 1).1 else (extractQuestions p).1) =
        (extractQuestions p).1 from rfl]
    rw [h2]
    rw [show ((p, ([] : List DiscreteQuestion)).1) = p from rfl]
    rw [h3, h4]
    simp only [parseParagraphs, hne, Bool.false_eq_true, if_false]
    rw [h5]
  constructor
  · rw [hpar, List.map_cons, List.map_nil, htes, hstart, hend]
  · rw [show (parse A ws p).plain_text_es =
          joinBlank ((parse A ws p).paragraphs.map (fun q => q.text_es)) from rfl,
        hpar, List.map_cons, List.map_nil, htes]
    rfl

/-- C6 amended witness: the plain text `"Hola mundo."` satisfies every
benignity condition, and re-parsing it gives exactly one paragraph equal to
the whole text. -/
theorem c6_amended_witness :
    (parse (fun _ => []) [] ("Hola mundo.".toList)).paragraphs.map
          (fun q => (q.text_es, q.start_char, q.end_char)) =
        [("Hola mundo.".toList, 0, ("Hola mundo.".toList).length)] ∧
      (parse (fun _ => []) [] ("Hola mundo.".toList)).plain_text_es = "Hola mundo.".toList :=
  c6_amended ("Hola mundo.".toList) (fun _ => []) [] (by decide) (by decide) (by decide)
    (by decide) (by decide) (by decide) (by decide) (by decide)

end Siele
